import Mathlib

set_option maxRecDepth 8192
set_option synthInstance.maxSize 2048
set_option synthInstance.maxHeartbeats 1000000

/-!
Verification of the capability-based access-control core of
`casper-node` (`types/src/access_rights.rs`): the `AccessRights`
permission bitmask, its 1-byte canonical codec, and the per-context
`ContextAccessRights` capability table.

`AccessRights` is a `bitflags` struct over a `u8`; we embed its bit
pattern as a `Nat` (always `< 256` for genuine `u8` values, which the
theorems assume explicitly where it matters). Addresses (`URefAddr`,
32 raw bytes) and context keys (`Key`) are opaque identifiers here,
embedded as `Nat`. The `BTreeMap<URefAddr, AccessRights>` table is
embedded extensionally as a function `URefAddr → Option AccessRights`.
-/

/-- A `URef` address: 32 opaque bytes in the source, embedded as an
opaque identifier with decidable equality. -/
abbrev URefAddr := Nat

/-- A `Key`: opaque context identifier, only stored and returned. -/
abbrev Key := Nat

/-- The bit pattern of an `AccessRights` value (`u8` in the source). -/
abbrev AccessRights := Nat

namespace AccessRights

/-- Source: `const NONE = 0;`. -/
def NONE : AccessRights := 0

/-- Source: `const READ = 0b001;`. -/
def READ : AccessRights := 0b001

/-- Source: `const WRITE = 0b010;`. -/
def WRITE : AccessRights := 0b010

/-- Source: `const ADD = 0b100;`. -/
def ADD : AccessRights := 0b100

/-- Source: `const READ_ADD = Self::READ.bits | Self::ADD.bits;`. -/
def READ_ADD : AccessRights := READ ||| ADD

/-- Source: `const READ_WRITE = Self::READ.bits | Self::WRITE.bits;`. -/
def READ_WRITE : AccessRights := READ ||| WRITE

/-- Source: `const ADD_WRITE = Self::ADD.bits | Self::WRITE.bits;`. -/
def ADD_WRITE : AccessRights := ADD ||| WRITE

/-- Source: `const READ_ADD_WRITE = Self::READ.bits | Self::ADD.bits | Self::WRITE.bits;`. -/
def READ_ADD_WRITE : AccessRights := READ ||| ADD ||| WRITE

/-- Union of the bits of every declared flag (`bitflags`' `Self::all()`),
which is `0b111`. -/
def allBits : AccessRights := 0b111

/-- Predicate `is_readable`: `self & AccessRights::READ == AccessRights::READ`. -/
def is_readable (s : AccessRights) : Bool := (s &&& READ) == READ

/-- Predicate `is_writeable`: `self & AccessRights::WRITE == AccessRights::WRITE`. -/
def is_writeable (s : AccessRights) : Bool := (s &&& WRITE) == WRITE

/-- Predicate `is_addable`: `self & AccessRights::ADD == AccessRights::ADD`. -/
def is_addable (s : AccessRights) : Bool := (s &&& ADD) == ADD

/-- Predicate `is_none`: `self == AccessRights::NONE`. -/
def is_none (s : AccessRights) : Bool := s == NONE

/-- The `bitflags`-generated `union`: bitwise OR of the two bit patterns. -/
def union (s o : AccessRights) : AccessRights := s ||| o

/-- The `bitflags`-generated `contains`: `(self.bits & other.bits) == other.bits`. -/
def contains (s o : AccessRights) : Bool := (s &&& o) == o

/-- The `bitflags`-generated `from_bits`: `Some` iff no bit outside the
declared flags is set, i.e. `bits & !Self::all().bits == 0` where
`!0b111 = 0b1111_1000 = 248` on `u8`. -/
def from_bits (bits : AccessRights) : Option AccessRights :=
  if bits &&& 248 = 0 then some bits else none

/-- The `Display` impl: the eight named patterns render to their fixed
names, any other pattern renders as `UNKNOWN` (same match order as the
source). -/
def display (s : AccessRights) : String :=
  if s = NONE then "NONE"
  else if s = READ then "READ"
  else if s = WRITE then "WRITE"
  else if s = ADD then "ADD"
  else if s = READ_ADD then "READ_ADD"
  else if s = READ_WRITE then "READ_WRITE"
  else if s = ADD_WRITE then "ADD_WRITE"
  else if s = READ_ADD_WRITE then "READ_ADD_WRITE"
  else "UNKNOWN"

end AccessRights

namespace bytesrepr

/-- Modelled from the spec: the codec's error taxonomy — `FormatError`
(`bytesrepr::Error::Formatting`, a reserved bit pattern) and
`InsufficientDataError` (`bytesrepr::Error::EarlyEndOfStream`, fewer
bytes than the fixed length requires). The `bytesrepr` module itself is
not part of this excerpt. -/
inductive Error where
  | formatting
  | earlyEndOfStream
deriving DecidableEq, Repr

/-- Modelled from the spec: `u8::from_bytes` reads exactly one byte and
fails with the `InsufficientDataError` when fewer than 1 byte is
available; the `bytesrepr` impl for `u8` is not part of this excerpt. -/
def u8_from_bytes (bytes : List Nat) : Except Error (Nat × List Nat) :=
  match bytes with
  | [] => .error .earlyEndOfStream
  | b :: rem => .ok (b, rem)

/-- Modelled from the spec: `u8::to_bytes` is the raw byte, total,
fixed length 1; the `bytesrepr` impl for `u8` is not part of this
excerpt. -/
def u8_to_bytes (b : Nat) : List Nat := [b]

end bytesrepr

namespace AccessRights

/-- Impl `ToBytes for AccessRights`: `self.bits.to_bytes()`. -/
def to_bytes (s : AccessRights) : List Nat := bytesrepr.u8_to_bytes s

/-- Constant `serialized_length`: `ACCESS_RIGHTS_SERIALIZED_LENGTH = 1`. -/
def serialized_length : Nat := 1

/-- Impl `FromBytes for AccessRights`: decode one `u8`, then accept it via
`from_bits`, mapping a rejected pattern to `Error::Formatting`. -/
def from_bytes (bytes : List Nat) : Except bytesrepr.Error (AccessRights × List Nat) :=
  match bytesrepr.u8_from_bytes bytes with
  | .error e => .error e
  | .ok (id, rem) =>
    match from_bits id with
    | some rights => .ok (rights, rem)
    | none => .error .formatting

end AccessRights

/-- A `URef`: a 32-byte address paired with an `AccessRights` mask.
`addr` embeds `URef::addr()` and `access_rights` embeds
`URef::access_rights()`. -/
structure URef where
  addr : URefAddr
  access_rights : AccessRights
deriving DecidableEq, Repr

/-- Struct `ContextAccessRights`: the per-context capability table. The
`BTreeMap<URefAddr, AccessRights>` is embedded extensionally as a
partial function from addresses to masks. -/
structure ContextAccessRights where
  context_key : Key
  access_rights : URefAddr → Option AccessRights

namespace ContextAccessRights

/-- One step of `do_extend`'s loop body: the `entry` upsert — union
into an occupied entry, insert the uref's rights into a vacant one. -/
def upsert (m : URefAddr → Option AccessRights) (uref : URef) :
    URefAddr → Option AccessRights :=
  fun a =>
    if a = uref.addr then
      match m uref.addr with
      | some rights => some (AccessRights.union rights uref.access_rights)
      | none => some uref.access_rights
    else m a

/-- Method `do_extend`: folds the upsert over the given urefs in order. -/
def do_extend (s : ContextAccessRights) (urefs : List URef) : ContextAccessRights :=
  { s with access_rights := urefs.foldl upsert s.access_rights }

/-- Constructor `ContextAccessRights::new`: start from an empty table under
`context_key` and `do_extend` with the given urefs. -/
def new (context_key : Key) (urefs : List URef) : ContextAccessRights :=
  do_extend ⟨context_key, fun _ => none⟩ urefs

/-- Method `ContextAccessRights::extend` forwards to `do_extend`. -/
def extend (s : ContextAccessRights) (urefs : List URef) : ContextAccessRights :=
  do_extend s urefs

/-- Method `has_access_rights_to_uref`: true iff the table holds an entry for
the uref's address whose mask `contains` the uref's rights; an unknown
address yields `false`. -/
def has_access_rights_to_uref (s : ContextAccessRights) (uref : URef) : Bool :=
  match s.access_rights uref.addr with
  | some known_rights => known_rights.contains uref.access_rights
  | none => false

end ContextAccessRights

/-- The bitwise union of the masks of all urefs in a list (the rights
an address accumulates from that batch when all of them share it). -/
def unionOfRights (urefs : List URef) : AccessRights :=
  urefs.foldl (fun acc u => acc ||| u.access_rights) 0

/-- The concatenation of the token batches ever passed to `new` and to
each subsequent `extend` call. -/
def allGrants (initial : List URef) (extensions : List (List URef)) : List URef :=
  initial ++ extensions.flatten

/-- A capability set after `new` and an arbitrary sequence of `extend`
calls. -/
def buildSet (k : Key) (initial : List URef) (extensions : List (List URef)) :
    ContextAccessRights :=
  extensions.foldl ContextAccessRights.extend (ContextAccessRights.new k initial)

lemma foldl_lor_init (l : List URef) (acc : AccessRights) :
    l.foldl (fun acc u => acc ||| u.access_rights) acc = acc ||| unionOfRights l := by
  induction l generalizing acc with
  | nil => simp [unionOfRights]
  | cons u t ih =>
    simp only [unionOfRights, List.foldl_cons]
    rw [ih, ih (0 ||| u.access_rights)]
    simp [Nat.lor_assoc]

lemma upsert_lookup_eq (m : URefAddr → Option AccessRights) (u : URef) :
    ContextAccessRights.upsert m u u.addr =
      some ((m u.addr).getD 0 ||| u.access_rights) := by
  simp only [ContextAccessRights.upsert, if_pos rfl]
  cases m u.addr with
  | none => simp
  | some r => simp [AccessRights.union]

lemma upsert_lookup_ne (m : URefAddr → Option AccessRights) (u : URef)
    (a : URefAddr) (h : a ≠ u.addr) :
    ContextAccessRights.upsert m u a = m a := by
  simp [ContextAccessRights.upsert, h]

/-- Characterization of the table produced by folding `upsert` over a
batch: an address touched by the batch ends with its old rights (NONE
when absent) unioned with every matching uref's rights; any other
address keeps its old entry. -/
lemma foldl_upsert_lookup (l : List URef) (m : URefAddr → Option AccessRights)
    (a : URefAddr) :
    l.foldl ContextAccessRights.upsert m a =
      if l.any (fun u => u.addr == a) then
        some ((m a).getD 0 ||| unionOfRights (l.filter (fun u => u.addr == a)))
      else m a := by
  induction l generalizing m with
  | nil => simp
  | cons u t ih =>
    simp only [List.foldl_cons]
    rw [ih]
    by_cases hu : u.addr = a
    · subst hu
      have hb : (u.addr == u.addr) = true := beq_self_eq_true u.addr
      have hcons : (u :: t).filter (fun v => v.addr == u.addr)
          = u :: t.filter (fun v => v.addr == u.addr) := by
        simp [List.filter_cons, hb]
      have hanyc : ((u :: t).any fun v => v.addr == u.addr) = true := by
        simp [List.any_cons, hb]
      have hun : unionOfRights ((u :: t).filter (fun v => v.addr == u.addr))
          = u.access_rights ||| unionOfRights (t.filter (fun v => v.addr == u.addr)) := by
        rw [hcons]
        simp only [unionOfRights, List.foldl_cons]
        rw [foldl_lor_init]
        simp [unionOfRights, Nat.zero_or]
      rw [upsert_lookup_eq, hanyc, hun]
      by_cases ht : (t.any fun v => v.addr == u.addr) = true
      · rw [ht]
        simp [Nat.lor_assoc]
      · have hfil : t.filter (fun v => v.addr == u.addr) = [] := by
          rw [List.filter_eq_nil_iff]
          intro v hv hvb
          exact ht (List.any_eq_true.mpr ⟨v, hv, hvb⟩)
        rw [if_neg ht, hfil]
        simp [unionOfRights, Nat.or_zero]
    · have hub : (u.addr == a) = false := by simp [hu]
      rw [upsert_lookup_ne m u a (fun h => hu h.symm)]
      simp [List.any_cons, hub, List.filter_cons]

lemma lor_land_absorb (a b : Nat) : (a ||| b) &&& a = a := by
  apply Nat.eq_of_testBit_eq
  intro i
  simp only [Nat.testBit_land, Nat.testBit_lor]
  cases a.testBit i <;> cases b.testBit i <;> rfl

lemma unionOfRights_perm {l1 l2 : List URef} (h : l1.Perm l2) :
    unionOfRights l1 = unionOfRights l2 := by
  letI : RightCommutative (fun (acc : AccessRights) (u : URef) => acc ||| u.access_rights) :=
    ⟨fun b a c => by
      rw [Nat.lor_assoc, Nat.lor_assoc, Nat.lor_comm a.access_rights c.access_rights]⟩
  exact h.foldl_eq 0

/-- Folding `extend` over a list of batches acts on the table as
folding `upsert` over the flattened batches. -/
lemma foldl_extend_access_rights (exts : List (List URef)) (s : ContextAccessRights) :
    (exts.foldl ContextAccessRights.extend s).access_rights
      = exts.flatten.foldl ContextAccessRights.upsert s.access_rights := by
  induction exts generalizing s with
  | nil => rfl
  | cons e es ih =>
    simp only [List.foldl_cons, List.flatten_cons, List.foldl_append]
    exact ih _

/-- The table built by `new` followed by a sequence of `extend` calls is
the fold of `upsert` over all grants, starting from the empty table. -/
lemma buildSet_access_rights (k : Key) (init : List URef) (exts : List (List URef)) :
    (buildSet k init exts).access_rights
      = (allGrants init exts).foldl ContextAccessRights.upsert (fun _ => none) := by
  simp only [buildSet, allGrants]
  rw [foldl_extend_access_rights]
  have hnew : (ContextAccessRights.new k init).access_rights
      = init.foldl ContextAccessRights.upsert (fun _ => none) := rfl
  rw [hnew, List.foldl_append]

/-- On genuine `u8` values the `from_bits` acceptance test
`bits & 248 == 0` says exactly that no bit outside positions 0–2 is
set. -/
lemma and_248_eq_zero_iff (b : Nat) (hb : b < 256) :
    (b &&& 248 = 0) ↔ (∀ i, 3 ≤ i → b.testBit i = false) := by
  have hbound : ∀ b < 256, ((b &&& 248 = 0) ↔ ∀ i < 8, 3 ≤ i → b.testBit i = false) := by
    decide
  constructor
  · intro h i hi3
    by_cases hi8 : i < 8
    · exact (hbound b hb).mp h i hi8 hi3
    · apply Nat.testBit_lt_two_pow
      calc b < 256 := hb
      _ = 2 ^ 8 := by norm_num
      _ ≤ 2 ^ i := Nat.pow_le_pow_right (by norm_num) (le_of_not_lt hi8)
  · intro h
    exact (hbound b hb).mpr fun i _ hi3 => h i hi3

/-- Evaluating `from_bytes` on a non-empty input: accept the head byte iff its
bits pass `from_bits`, keeping the tail as the remainder. -/
lemma from_bytes_cons (b : Nat) (tail : List Nat) :
    AccessRights.from_bytes (b :: tail)
      = if b &&& 248 = 0 then .ok (b, tail) else .error .formatting := by
  by_cases h : b &&& 248 = 0 <;>
    simp [AccessRights.from_bytes, bytesrepr.u8_from_bytes, AccessRights.from_bits, h]

lemma and_248_of_lt_8 (m : Nat) (h : m < 8) : m &&& 248 = 0 := by
  have : ∀ m < 8, m &&& 248 = 0 := by decide
  exact this m h

/-- Claim C1 counterexample: a capability set granted only address 1
has no table entry for address 2, yet `has_access_rights_to_uref` on a
token for address 2 with NONE rights returns `false`, not `true` as
the claim states. -/
theorem C1_counterexample :
    (ContextAccessRights.new 0 [⟨1, AccessRights.READ_ADD⟩]).access_rights 2 = none ∧
    (ContextAccessRights.new 0
        [⟨1, AccessRights.READ_ADD⟩]).has_access_rights_to_uref ⟨2, AccessRights.NONE⟩
      = false := by
  exact ⟨by decide, by decide⟩

/-- Claim C1 (corrected): for every capability set and every requested
token whose address is absent from the set's table,
`has_access_rights_to_uref` returns `false`, even when the requested
rights are NONE: an unknown address is denied unconditionally. -/
theorem C1_authorize_unknown_addr_false (s : ContextAccessRights) (u : URef)
    (h : s.access_rights u.addr = none) :
    s.has_access_rights_to_uref u = false := by
  simp [ContextAccessRights.has_access_rights_to_uref, h]

theorem C1_authorize_unknown_addr_false_witness :
    (ContextAccessRights.new 0
        [⟨1, AccessRights.READ_ADD⟩]).has_access_rights_to_uref ⟨2, AccessRights.READ⟩
      = false :=
  C1_authorize_unknown_addr_false _ _ (by decide)

/-- Claim C2 (confirmed): when the requested token's address is present
in the table, `has_access_rights_to_uref` is true iff the stored mask
`contains` the requested mask; when the address is absent and the
requested mask is non-empty, it is false. -/
theorem C2_authorize_contains_spec (s : ContextAccessRights) (u : URef) :
    (∀ r, s.access_rights u.addr = some r →
        (s.has_access_rights_to_uref u = true ↔
          AccessRights.contains r u.access_rights = true)) ∧
    (s.access_rights u.addr = none → u.access_rights ≠ AccessRights.NONE →
        s.has_access_rights_to_uref u = false) := by
  constructor
  · intro r h
    simp [ContextAccessRights.has_access_rights_to_uref, h]
  · intro h _
    simp [ContextAccessRights.has_access_rights_to_uref, h]

theorem C2_authorize_contains_spec_witness :
    (ContextAccessRights.new 0
        [⟨1, AccessRights.READ_ADD⟩]).has_access_rights_to_uref ⟨1, AccessRights.READ⟩
      = true ∧
    (ContextAccessRights.new 0
        [⟨1, AccessRights.READ_ADD⟩]).has_access_rights_to_uref ⟨2, AccessRights.READ⟩
      = false := by
  constructor
  · exact ((C2_authorize_contains_spec _ ⟨1, AccessRights.READ⟩).1
      AccessRights.READ_ADD (by decide)).mpr (by decide)
  · exact (C2_authorize_contains_spec _ ⟨2, AccessRights.READ⟩).2 (by decide) (by decide)

/-- Claim C3 (confirmed): in a capability set built by `new` and any
sequence of `extend` calls, every stored mask equals the bitwise union
of the masks of every granted token with that address, and that union
is independent of the order of the grants. -/
theorem C3_table_entry_is_union_of_grants :
    (∀ (k : Key) (init : List URef) (exts : List (List URef)) (a : URefAddr)
        (r : AccessRights),
        (buildSet k init exts).access_rights a = some r →
        r = unionOfRights ((allGrants init exts).filter (fun u => u.addr == a))) ∧
    (∀ l1 l2 : List URef, l1.Perm l2 → unionOfRights l1 = unionOfRights l2) := by
  constructor
  · intro k init exts a r h
    rw [buildSet_access_rights, foldl_upsert_lookup] at h
    by_cases hany : ((allGrants init exts).any fun u => u.addr == a) = true
    · rw [if_pos hany] at h
      simp only [Option.getD_none, Option.some.injEq] at h
      rw [← h, Nat.zero_or]
    · rw [if_neg hany] at h
      exact absurd h (by simp)
  · intro l1 l2 h
    exact unionOfRights_perm h

theorem C3_table_entry_is_union_of_grants_witness :
    (buildSet 0 [⟨1, AccessRights.NONE⟩, ⟨1, AccessRights.READ⟩, ⟨1, AccessRights.ADD⟩]
        []).access_rights 1 = some AccessRights.READ_ADD ∧
    AccessRights.READ_ADD = unionOfRights
      ((allGrants [⟨1, AccessRights.NONE⟩, ⟨1, AccessRights.READ⟩, ⟨1, AccessRights.ADD⟩]
          []).filter (fun u => u.addr == 1)) := by
  refine ⟨by decide, ?_⟩
  exact C3_table_entry_is_union_of_grants.1 0
    [⟨1, AccessRights.NONE⟩, ⟨1, AccessRights.READ⟩, ⟨1, AccessRights.ADD⟩] [] 1
    AccessRights.READ_ADD (by decide)

/-- Claim C4 (confirmed, with `u8` codec modelled from the spec):
decoding a permission mask reads exactly one byte, succeeds (returning
the byte and the untouched tail) iff the first byte has no bit set
outside positions 0–2, fails with `Formatting` iff some bit outside
positions 0–2 is set, and fails with the distinct `EarlyEndOfStream`
on an input shorter than one byte. -/
theorem C4_decode_one_byte_spec (b : Nat) (tail : List Nat) (hb : b < 256) :
    AccessRights.from_bytes [] = .error .earlyEndOfStream ∧
    ((AccessRights.from_bytes (b :: tail) = .ok (b, tail)) ↔
      (∀ i, 3 ≤ i → b.testBit i = false)) ∧
    ((AccessRights.from_bytes (b :: tail) = .error .formatting) ↔
      ¬(∀ i, 3 ≤ i → b.testBit i = false)) := by
  refine ⟨rfl, ?_, ?_⟩
  · rw [from_bytes_cons]
    by_cases h : b &&& 248 = 0
    · rw [if_pos h]
      exact ⟨fun _ => (and_248_eq_zero_iff b hb).mp h, fun _ => rfl⟩
    · rw [if_neg h]
      constructor
      · intro heq
        exact absurd heq (by simp)
      · intro hall
        exact absurd ((and_248_eq_zero_iff b hb).mpr hall) h
  · rw [from_bytes_cons]
    by_cases h : b &&& 248 = 0
    · rw [if_pos h]
      constructor
      · intro heq
        exact absurd heq (by simp)
      · intro hnall
        exact absurd ((and_248_eq_zero_iff b hb).mp h) hnall
    · rw [if_neg h]
      exact ⟨fun _ hall => h ((and_248_eq_zero_iff b hb).mpr hall),
        fun _ => rfl⟩

theorem C4_decode_one_byte_spec_witness :
    AccessRights.from_bytes [8] = .error .formatting ∧
    AccessRights.from_bytes [] = .error .earlyEndOfStream := by
  have h := C4_decode_one_byte_spec 8 [] (by decide)
  refine ⟨h.2.2.mpr ?_, h.1⟩
  intro hall
  exact absurd (hall 3 (by decide)) (by decide)

/-- Claim C5 (confirmed, with `u8` codec modelled from the spec): for
every valid mask (the 8 values below `0b1000`) and every tail,
decoding `encode(m) ++ tail` returns `(m, tail)`, and `encode` is
injective over the valid masks. -/
theorem C5_roundtrip_and_injective :
    (∀ (m : AccessRights) (tail : List Nat), m < 8 →
        AccessRights.from_bytes (AccessRights.to_bytes m ++ tail) = .ok (m, tail)) ∧
    (∀ m1 m2 : AccessRights, m1 < 8 → m2 < 8 →
        AccessRights.to_bytes m1 = AccessRights.to_bytes m2 → m1 = m2) := by
  constructor
  · intro m tail hm
    have hc : AccessRights.to_bytes m ++ tail = m :: tail := rfl
    rw [hc, from_bytes_cons, if_pos (and_248_of_lt_8 m hm)]
  · intro m1 m2 _ _ h
    simpa [AccessRights.to_bytes, bytesrepr.u8_to_bytes] using h

theorem C5_roundtrip_and_injective_witness :
    AccessRights.from_bytes (AccessRights.to_bytes AccessRights.READ_ADD ++ [9])
      = .ok (AccessRights.READ_ADD, [9]) ∧
    AccessRights.READ = AccessRights.READ := by
  refine ⟨C5_roundtrip_and_injective.1 AccessRights.READ_ADD [9] (by decide), ?_⟩
  exact C5_roundtrip_and_injective.2 AccessRights.READ AccessRights.READ
    (by decide) (by decide) rfl

/-- Claim C7 (confirmed): over the 8 valid masks, `union` is
associative, commutative, idempotent, has NONE as identity, and is a
supremum for `contains`. -/
theorem C7_union_algebra :
    ∀ a < 8, ∀ b < 8, ∀ c < 8,
      AccessRights.union (AccessRights.union a b) c
          = AccessRights.union a (AccessRights.union b c) ∧
      AccessRights.union a b = AccessRights.union b a ∧
      AccessRights.union a a = a ∧
      AccessRights.union AccessRights.NONE a = a ∧
      AccessRights.contains (AccessRights.union a b) a = true ∧
      AccessRights.contains (AccessRights.union a b) b = true := by
  decide

theorem C7_union_algebra_witness :
    AccessRights.union (AccessRights.union AccessRights.READ AccessRights.WRITE)
        AccessRights.ADD
      = AccessRights.union AccessRights.READ
        (AccessRights.union AccessRights.WRITE AccessRights.ADD) ∧
    AccessRights.union AccessRights.READ AccessRights.WRITE
      = AccessRights.union AccessRights.WRITE AccessRights.READ ∧
    AccessRights.union AccessRights.READ AccessRights.READ = AccessRights.READ ∧
    AccessRights.union AccessRights.NONE AccessRights.READ = AccessRights.READ ∧
    AccessRights.contains (AccessRights.union AccessRights.READ AccessRights.WRITE)
        AccessRights.READ = true ∧
    AccessRights.contains (AccessRights.union AccessRights.READ AccessRights.WRITE)
        AccessRights.WRITE = true :=
  C7_union_algebra AccessRights.READ (by decide) AccessRights.WRITE (by decide)
    AccessRights.ADD (by decide)

/-- Claim C6 (confirmed): `extend` is monotonic — any address with a
recorded mask before the call has, after the call, a recorded mask
that `contains` the old one; rights never decrease. -/
theorem C6_extend_monotonic (s : ContextAccessRights) (urefs : List URef)
    (a : URefAddr) (r : AccessRights) (h : s.access_rights a = some r) :
    ∃ r2, (s.extend urefs).access_rights a = some r2 ∧
      AccessRights.contains r2 r = true := by
  have hl : (s.extend urefs).access_rights a
      = urefs.foldl ContextAccessRights.upsert s.access_rights a := rfl
  rw [hl, foldl_upsert_lookup]
  by_cases hany : (urefs.any fun u => u.addr == a) = true
  · rw [if_pos hany, h]
    refine ⟨r ||| unionOfRights (urefs.filter fun u => u.addr == a), rfl, ?_⟩
    simp [AccessRights.contains, lor_land_absorb]
  · rw [if_neg hany, h]
    exact ⟨r, rfl, by simp [AccessRights.contains, Nat.and_self]⟩

theorem C6_extend_monotonic_witness :
    ∃ r2, ((ContextAccessRights.new 0 [⟨1, AccessRights.READ⟩]).extend
        [⟨1, AccessRights.ADD⟩]).access_rights 1 = some r2 ∧
      AccessRights.contains r2 AccessRights.READ = true :=
  C6_extend_monotonic (ContextAccessRights.new 0 [⟨1, AccessRights.READ⟩])
    [⟨1, AccessRights.ADD⟩] 1 AccessRights.READ (by decide)

/-- Claim C8 (confirmed): over `u8` bit patterns, `is_readable` is
true iff bit 0 is set, `is_writeable` iff bit 1, `is_addable` iff
bit 2, and `is_none` iff the mask equals NONE; all four are total pure
functions. -/
theorem C8_flag_predicates :
    ∀ s < 256,
      (AccessRights.is_readable s = true ↔ s.testBit 0 = true) ∧
      (AccessRights.is_writeable s = true ↔ s.testBit 1 = true) ∧
      (AccessRights.is_addable s = true ↔ s.testBit 2 = true) ∧
      (AccessRights.is_none s = true ↔ s = AccessRights.NONE) := by
  decide

theorem C8_flag_predicates_witness :
    (AccessRights.is_readable AccessRights.READ_ADD = true ↔
      Nat.testBit AccessRights.READ_ADD 0 = true) ∧
    (AccessRights.is_writeable AccessRights.READ_ADD = true ↔
      Nat.testBit AccessRights.READ_ADD 1 = true) ∧
    (AccessRights.is_addable AccessRights.READ_ADD = true ↔
      Nat.testBit AccessRights.READ_ADD 2 = true) ∧
    (AccessRights.is_none AccessRights.READ_ADD = true ↔
      AccessRights.READ_ADD = AccessRights.NONE) :=
  C8_flag_predicates AccessRights.READ_ADD (by decide)

/-- Claim C9 (confirmed): the `Display` rendering yields the fixed
name of each of the 8 valid mask values, and every other `u8` bit
pattern renders as the explicit `UNKNOWN` marker (the renderer is a
total function, so it cannot fail). -/
theorem C9_display_rendering :
    AccessRights.display AccessRights.NONE = "NONE" ∧
    AccessRights.display AccessRights.READ = "READ" ∧
    AccessRights.display AccessRights.WRITE = "WRITE" ∧
    AccessRights.display AccessRights.ADD = "ADD" ∧
    AccessRights.display AccessRights.READ_ADD = "READ_ADD" ∧
    AccessRights.display AccessRights.READ_WRITE = "READ_WRITE" ∧
    AccessRights.display AccessRights.ADD_WRITE = "ADD_WRITE" ∧
    AccessRights.display AccessRights.READ_ADD_WRITE = "READ_ADD_WRITE" ∧
    ∀ s < 256, 8 ≤ s → AccessRights.display s = "UNKNOWN" := by
  refine ⟨rfl, rfl, rfl, rfl, rfl, rfl, rfl, rfl, ?_⟩
  decide

theorem C9_display_rendering_witness :
    AccessRights.display 9 = "UNKNOWN" :=
  C9_display_rendering.2.2.2.2.2.2.2.2 9 (by decide) (by decide)

/-- Claim C10 (confirmed): `extend` only grows the address table — the
`context_key` field is unchanged and every address present before the
call is still present after it. -/
theorem C10_extend_frame (s : ContextAccessRights) (urefs : List URef) :
    (s.extend urefs).context_key = s.context_key ∧
    ∀ a, (s.access_rights a).isSome = true →
      ((s.extend urefs).access_rights a).isSome = true := by
  refine ⟨rfl, ?_⟩
  intro a h
  have hl : (s.extend urefs).access_rights a
      = urefs.foldl ContextAccessRights.upsert s.access_rights a := rfl
  rw [hl, foldl_upsert_lookup]
  by_cases hany : (urefs.any fun u => u.addr == a) = true
  · rw [if_pos hany]
    rfl
  · rw [if_neg hany]
    exact h

theorem C10_extend_frame_witness :
    ((ContextAccessRights.new 0 [⟨1, AccessRights.READ⟩]).extend
        [⟨2, AccessRights.ADD⟩]).context_key
      = (ContextAccessRights.new 0 [⟨1, AccessRights.READ⟩]).context_key ∧
    (((ContextAccessRights.new 0 [⟨1, AccessRights.READ⟩]).extend
        [⟨2, AccessRights.ADD⟩]).access_rights 1).isSome = true :=
  ⟨(C10_extend_frame (ContextAccessRights.new 0 [⟨1, AccessRights.READ⟩])
      [⟨2, AccessRights.ADD⟩]).1,
    (C10_extend_frame (ContextAccessRights.new 0 [⟨1, AccessRights.READ⟩])
      [⟨2, AccessRights.ADD⟩]).2 1 (by decide)⟩
